import Mathlib

/-!
Verification of the monthly-statistics accumulation store of
`src/get_stats.py` (class `JavaPackageManager`) and of the cross-platform
aggregator (`calculate_total_downloads_for_table`).

The shallow embedding below translates the DuckDB SQL pipeline of
`JavaPackageManager.handle_maven_stats` (lines 197-233), the aggregate
query of `JavaPackageManager.get_downloads` (lines 235-267) and the
per-construct totalling of `calculate_total_downloads_for_table`
(lines 495-550) into executable Lean definitions.

Representation choices:
* a calendar month is a pair of year and month number (`Ym`); the
  `year_month` column of the parquet artifact holds the string label
  produced by `strftime(date, '%Y-%m')`, embedded by `fmtYm`;
* the persisted parquet artifact is a list of rows (`ConstructSeries`),
  in file order (`DELETE` keeps the order of surviving rows, `INSERT`
  appends); an absent artifact is `Option.none`;
* `downloads` values are integers (`Int`): the CSV column is read by
  `read_csv_auto` with no sign or range check;
* the decimal rendering of `strftime` is embedded by a fuel-based digit
  expansion (`digitsRevFuel`) so that every definition evaluates by
  kernel reduction.
-/

/-- Little-endian base-10 digit list of `n`, with explicit fuel (the fuel
is always sufficient when it is at least `n`, see `valRev_digitsRevFuel`). -/
def digitsRevFuel : Nat → Nat → List Nat
  | 0, _ => []
  | _ + 1, 0 => []
  | fuel + 1, n + 1 => (n + 1) % 10 :: digitsRevFuel fuel ((n + 1) / 10)

/-- Little-endian base-10 digits of `n` (empty for 0). -/
def digitsRev (n : Nat) : List Nat := digitsRevFuel n n

/-- Decimal digit as a character. -/
def digitChar : Nat → Char
  | 0 => '0' | 1 => '1' | 2 => '2' | 3 => '3' | 4 => '4'
  | 5 => '5' | 6 => '6' | 7 => '7' | 8 => '8' | _ => '9'

/-- Decimal rendering of `n` as a character list (empty for 0; callers pad). -/
def renderNat (n : Nat) : List Char := (digitsRev n).reverse.map digitChar

/-- Left-pad a character list with zeros to width `w`. -/
def padZeros (w : Nat) (cs : List Char) : List Char :=
  List.replicate (w - cs.length) '0' ++ cs

/-- Numeric value of one digit character (inverse of `digitChar`). -/
def dval (c : Char) : Nat := c.toNat - 48

/-- Value of a little-endian digit list. -/
def valRev : List Nat → Nat
  | [] => 0
  | d :: ds => d + 10 * valRev ds

/-- Value of a big-endian decimal character list. -/
def valChars (cs : List Char) : Nat := cs.foldl (fun a c => 10 * a + dval c) 0

/-- A calendar month: year and month number (month is 1..12 in well-formed
data; the merge key of the store is the formatted label `fmtYm`). -/
structure Ym where
  y : Nat
  m : Nat
deriving DecidableEq, Repr

/-- Month arithmetic of `DATE s + INTERVAL i MONTH` at month granularity
(src/get_stats.py line 212): the month component advances by `i`. -/
def addMonths (s : Ym) (i : Nat) : Ym :=
  ⟨(12 * s.y + (s.m - 1) + i) / 12, (12 * s.y + (s.m - 1) + i) % 12 + 1⟩

/-- Label of a month as produced by `strftime(date, '%Y-%m')`
(src/get_stats.py line 212): four-digit zero-padded year, dash,
two-digit zero-padded month. -/
def fmtYm (s : Ym) : String :=
  String.mk (padZeros 4 (renderNat s.y) ++ '-' :: padZeros 2 (renderNat s.m))

/-- One row of the persisted parquet artifact: columns `downloads` and
`year_month` (src/get_stats.py lines 211-212). -/
structure MonthlyRecord where
  downloads : Int
  year_month : String
deriving DecidableEq, Repr

/-- The persisted series for one construct: the rows of the parquet
artifact, in file order. -/
abbrev ConstructSeries := List MonthlyRecord

/-- The `updated_stats` table built from the CSV export
(src/get_stats.py lines 208-215): row `i` (zero-based, from
`ROW_NUMBER() OVER () - 1`) is paired with the label of
`startMonth + i` months. No validation is applied to the values. -/
def buildBatch (rows : List Int) (startMonth : Ym) : ConstructSeries :=
  List.ofFn fun i : Fin rows.length =>
    ⟨rows.get i, fmtYm (addMonths startMonth i.val)⟩

/-- The `year_month` column of a batch (the key set used by the
`DELETE ... WHERE year_month IN (...)` statement, line 224). -/
def batchMonths (batch : ConstructSeries) : List String :=
  batch.map MonthlyRecord.year_month

/-- The merge of src/get_stats.py lines 219-229: delete every existing
row whose `year_month` occurs in the batch (line 224), then insert all
batch rows (line 226). Surviving existing rows keep their file order and
the batch is appended. -/
def mergeSeries (existing batch : ConstructSeries) : ConstructSeries :=
  existing.filter (fun r => decide (r.year_month ∉ batchMonths batch)) ++ batch

/-- Whole-ingest step of `JavaPackageManager.handle_maven_stats`
(src/get_stats.py lines 197-233): build the batch from the CSV rows; if a
parquet artifact exists, merge into it (lines 219-229), otherwise the
batch itself is written as the new artifact (lines 230-233). -/
def handle_maven_stats (existing : Option ConstructSeries) (rows : List Int)
    (startMonth : Ym) : ConstructSeries :=
  let transformed := buildBatch rows startMonth
  match existing with
  | some s => mergeSeries s transformed
  | none => transformed

/-- The aggregate query `SELECT SUM(downloads), MIN(year_month)` of
`JavaPackageManager.get_downloads` (src/get_stats.py line 250). On an
empty table both aggregates are NULL and the caller's
`if start_date is None` branch fires, so the empty series yields `none`.
`MIN` over the VARCHAR column is the lexicographically least label. -/
def aggregateSeries : ConstructSeries → Option (Int × String)
  | [] => none
  | r :: rs =>
    some (((r :: rs).map MonthlyRecord.downloads).sum,
      (rs.map MonthlyRecord.year_month).foldl min r.year_month)

/-- Read path of `JavaPackageManager.get_downloads`
(src/get_stats.py lines 242-267) as a function of the artifact state at
read time: a missing parquet file returns 0 (lines 243-245), a NULL
aggregate (empty table) returns 0 (lines 253-255), otherwise the summed
downloads are returned (line 264). -/
def java_get_downloads (store : Option ConstructSeries) : Int :=
  match store with
  | none => 0
  | some s =>
    match aggregateSeries s with
    | none => 0
    | some (t, _) => t

/-- Gregorian leap-year test. -/
def isLeap (y : Nat) : Bool :=
  (y % 4 == 0 && y % 100 != 0) || y % 400 == 0

/-- Number of days of a month (used only to clamp the day component of
date arithmetic, as DuckDB and `relativedelta` do). -/
def daysInMonth (y m : Nat) : Nat :=
  if m = 2 then (if isLeap y then 29 else 28)
  else if m = 4 ∨ m = 6 ∨ m = 9 ∨ m = 11 then 30
  else 31

/-- A calendar date with a day component (the `start_month` value of
src/get_stats.py line 204 is a full date, not a month). -/
structure Dt where
  y : Nat
  m : Nat
  d : Nat
deriving DecidableEq, Repr

/-- `DATE dt + INTERVAL i MONTH` (src/get_stats.py line 212): the month
component advances by `i` and the day is clamped to the target month's
length. -/
def addMonthsDate (dt : Dt) (i : Nat) : Dt :=
  ⟨(addMonths ⟨dt.y, dt.m⟩ i).y, (addMonths ⟨dt.y, dt.m⟩ i).m,
    min dt.d (daysInMonth (addMonths ⟨dt.y, dt.m⟩ i).y (addMonths ⟨dt.y, dt.m⟩ i).m)⟩

/-- Label `strftime(dt, '%Y-%m')` of a full date: the day is ignored. -/
def monthLabel (dt : Dt) : String := fmtYm ⟨dt.y, dt.m⟩

/-- Label assigned to CSV row `i` when the supplied start date is `startDate`
(src/get_stats.py line 212). -/
def rowLabelFromDate (startDate : Dt) (i : Nat) : String :=
  monthLabel (addMonthsDate startDate i)

/-- The same date truncated to the first of its month. -/
def truncToMonth (dt : Dt) : Dt := ⟨dt.y, dt.m, 1⟩

/-- Start date derivation of src/get_stats.py line 204:
`export_date - relativedelta(years=1)`, which keeps the day of month
(clamped for Feb 29). -/
def start_month (export_date : Dt) : Dt :=
  ⟨export_date.y - 1, export_date.m,
    min export_date.d (daysInMonth (export_date.y - 1) export_date.m)⟩

/-- A platform client's conversion of an HTTP result to a count: a non-200
response (here `none`) yields 0 with a log line (src/get_stats.py
lines 103-116, 174-187, 248-267, 360-377, 453-460). -/
def clientOrZero (resp : Option Nat) : Nat := resp.getD 0

/-- Outcome of the per-platform lookups feeding
`calculate_total_downloads_for_table` (src/get_stats.py lines 511-526):
`none` in the first four fields is a failed HTTP lookup (each client
converts it to 0 itself); `goImport = none` is
`GoPackageManager.get_import_count` returning Python `None`
(lines 423-431), and `goClones` is the clone count
(`get_github_clone_count` already converts its errors to 0). -/
structure PlatformResponses where
  npm : Option Nat
  pypi : Option Nat
  java : Option Nat
  nuget : Option Nat
  goImport : Option Nat
  goClones : Nat

/-- Totalling step of `calculate_total_downloads_for_table`
(src/get_stats.py lines 508-550). Line 526 computes
`go_stats["go_import_count"] + go_stats["total_clones"]`; when the import
count is Python `None` this raises `TypeError` and the whole call aborts,
which the embedding records as `Except.error`. Otherwise the five platform
numbers are summed (lines 528-530). -/
def calculate_total_downloads_for_table (r : PlatformResponses) :
    Except String Nat :=
  match r.goImport with
  | none => Except.error "TypeError: unsupported operand types for +: NoneType and int"
  | some g =>
    Except.ok (clientOrZero r.npm + clientOrZero r.pypi + clientOrZero r.java
      + clientOrZero r.nuget + (g + r.goClones))

/-! ### Decimal rendering: round-trip and length lemmas -/

theorem digitsRevFuel_lt_ten (fuel : Nat) :
    ∀ n, ∀ d ∈ digitsRevFuel fuel n, d < 10 := by
  induction fuel with
  | zero => intro n d hd; simp [digitsRevFuel] at hd
  | succ f ih =>
    intro n d hd
    cases n with
    | zero => simp [digitsRevFuel] at hd
    | succ k =>
      simp only [digitsRevFuel, List.mem_cons] at hd
      rcases hd with h | h
      · subst h; exact Nat.mod_lt _ (by norm_num)
      · exact ih _ d h

theorem valRev_digitsRevFuel (fuel : Nat) :
    ∀ n, n ≤ fuel → valRev (digitsRevFuel fuel n) = n := by
  induction fuel with
  | zero => intro n hn; interval_cases n; simp [digitsRevFuel, valRev]
  | succ f ih =>
    intro n hn
    cases n with
    | zero => simp [digitsRevFuel, valRev]
    | succ k =>
      have hlt : (k + 1) / 10 < k + 1 := Nat.div_lt_self (Nat.succ_pos k) (by norm_num)
      have h1 : (k + 1) / 10 ≤ f := by omega
      simp only [digitsRevFuel, valRev, ih _ h1]
      omega

theorem length_digitsRevFuel (fuel : Nat) :
    ∀ n k, n ≤ fuel → n < 10 ^ k → (digitsRevFuel fuel n).length ≤ k := by
  induction fuel with
  | zero => intro n k hn _; interval_cases n; simp [digitsRevFuel]
  | succ f ih =>
    intro n k hn hk
    cases n with
    | zero => simp [digitsRevFuel]
    | succ j =>
      cases k with
      | zero => simp at hk
      | succ k2 =>
        have hlt : (j + 1) / 10 < j + 1 := Nat.div_lt_self (Nat.succ_pos j) (by norm_num)
        have hd : (j + 1) / 10 ≤ f := by omega
        have hk2 : (j + 1) / 10 < 10 ^ k2 := by
          rw [Nat.div_lt_iff_lt_mul (by norm_num : (0:Nat) < 10)]
          calc j + 1 < 10 ^ (k2 + 1) := hk
            _ = 10 ^ k2 * 10 := by ring
        simp only [digitsRevFuel, List.length_cons]
        have := ih _ k2 hd hk2
        omega

theorem dval_digitChar (d : Nat) (h : d < 10) : dval (digitChar d) = d := by
  interval_cases d <;> rfl

theorem foldl_digits_val (ds : List Nat) (hd : ∀ d ∈ ds, d < 10) (a : Nat) :
    (ds.reverse.map digitChar).foldl (fun acc c => 10 * acc + dval c) a
      = a * 10 ^ ds.length + valRev ds := by
  induction ds generalizing a with
  | nil => simp [valRev]
  | cons d t ih =>
    have hdt : ∀ x ∈ t, x < 10 := fun x hx => hd x (List.mem_cons_of_mem _ hx)
    have hdd : d < 10 := hd d (List.mem_cons_self _ _)
    simp only [List.reverse_cons, List.map_append, List.map_cons, List.map_nil,
      List.foldl_append, List.foldl_cons, List.foldl_nil, ih hdt]
    rw [dval_digitChar d hdd]
    simp only [valRev, List.length_cons]
    ring

theorem foldl_zeros (k : Nat) :
    (List.replicate k '0').foldl (fun acc c => 10 * acc + dval c) 0 = 0 := by
  induction k with
  | zero => rfl
  | succ j ih =>
    rw [List.replicate_succ, List.foldl_cons]
    exact ih

theorem valChars_padZeros_renderNat (w n : Nat) :
    valChars (padZeros w (renderNat n)) = n := by
  unfold valChars padZeros
  rw [List.foldl_append, foldl_zeros]
  unfold renderNat
  rw [foldl_digits_val (digitsRev n) (digitsRevFuel_lt_ten n n) 0]
  simp [digitsRev, valRev_digitsRevFuel n n le_rfl]

theorem length_padZeros {w : Nat} (cs : List Char) (h : cs.length ≤ w) :
    (padZeros w cs).length = w := by
  simp [padZeros]
  omega

theorem length_renderNat_le {n k : Nat} (h : n < 10 ^ k) :
    (renderNat n).length ≤ k := by
  simp only [renderNat, List.length_map, List.length_reverse]
  exact length_digitsRevFuel n n k le_rfl h

/-! ### Injectivity of the month label -/

theorem fmtYm_inj {a b : Ym} (ha : a.m < 100) (hb : b.m < 100)
    (h : fmtYm a = fmtYm b) : a = b := by
  have hd : padZeros 4 (renderNat a.y) ++ '-' :: padZeros 2 (renderNat a.m)
      = padZeros 4 (renderNat b.y) ++ '-' :: padZeros 2 (renderNat b.m) := by
    have h2 := congrArg String.data h
    simpa [fmtYm] using h2
  have hla : (padZeros 2 (renderNat a.m)).length = 2 :=
    length_padZeros _ (length_renderNat_le (by simpa using ha))
  have hlb : (padZeros 2 (renderNat b.m)).length = 2 :=
    length_padZeros _ (length_renderNat_le (by simpa using hb))
  have hlen : ('-' :: padZeros 2 (renderNat a.m)).length
      = ('-' :: padZeros 2 (renderNat b.m)).length := by
    simp [hla, hlb]
  obtain ⟨h1, h2⟩ := List.append_inj' hd hlen
  have hy : a.y = b.y := by
    have h3 := congrArg valChars h1
    rwa [valChars_padZeros_renderNat, valChars_padZeros_renderNat] at h3
  have hm : a.m = b.m := by
    have h3 : padZeros 2 (renderNat a.m) = padZeros 2 (renderNat b.m) :=
      List.tail_eq_of_cons_eq h2
    have h4 := congrArg valChars h3
    rwa [valChars_padZeros_renderNat, valChars_padZeros_renderNat] at h4
  cases a; cases b
  simp_all

theorem addMonths_m_lt (s : Ym) (i : Nat) : (addMonths s i).m < 100 := by
  simp only [addMonths]
  omega

theorem addMonths_inj (s : Ym) {i j : Nat}
    (h : addMonths s i = addMonths s j) : i = j := by
  have hy := congrArg Ym.y h
  have hm := congrArg Ym.m h
  simp only [addMonths] at hy hm
  omega

theorem rowLabel_inj (s : Ym) : Function.Injective fun i => fmtYm (addMonths s i) := by
  intro i j h
  exact addMonths_inj s (fmtYm_inj (addMonths_m_lt s i) (addMonths_m_lt s j) h)

/-! ### Batch structure lemmas -/

theorem buildBatch_length (rows : List Int) (s : Ym) :
    (buildBatch rows s).length = rows.length := by
  simp [buildBatch]

theorem batchMonths_buildBatch (rows : List Int) (s : Ym) :
    batchMonths (buildBatch rows s)
      = List.ofFn fun i : Fin rows.length => fmtYm (addMonths s i.val) := by
  simp only [batchMonths, buildBatch, List.map_ofFn]
  rfl

theorem batchMonths_buildBatch_nodup (rows : List Int) (s : Ym) :
    (batchMonths (buildBatch rows s)).Nodup := by
  rw [batchMonths_buildBatch, List.nodup_ofFn]
  intro i j h
  exact Fin.ext (rowLabel_inj s h)

theorem label_mem_batchMonths (rows : List Int) (s : Ym) {i : Nat}
    (h : i < rows.length) :
    fmtYm (addMonths s i) ∈ batchMonths (buildBatch rows s) := by
  rw [batchMonths_buildBatch, List.mem_ofFn]
  exact ⟨⟨i, h⟩, rfl⟩

theorem mem_buildBatch {rows : List Int} {s : Ym} {r : MonthlyRecord}
    (h : r ∈ buildBatch rows s) :
    ∃ j : Fin rows.length, r = ⟨rows.get j, fmtYm (addMonths s j.val)⟩ := by
  rw [buildBatch, List.mem_ofFn] at h
  obtain ⟨j, hj⟩ := h
  exact ⟨j, hj.symm⟩

/-! ### Merge lemmas -/

theorem batch_filter_self (B : ConstructSeries) :
    B.filter (fun r => decide (r.year_month ∉ batchMonths B)) = [] := by
  rw [List.filter_eq_nil_iff]
  intro r hr
  have hm : r.year_month ∈ batchMonths B :=
    List.mem_map_of_mem MonthlyRecord.year_month hr
  simp [hm]

theorem mergeSeries_idem (S B : ConstructSeries) :
    mergeSeries (mergeSeries S B) B = mergeSeries S B := by
  unfold mergeSeries
  rw [List.filter_append, batch_filter_self, List.append_nil, List.filter_filter]
  simp only [Bool.and_self]

theorem mergeSeries_self (B : ConstructSeries) : mergeSeries B B = B := by
  unfold mergeSeries
  rw [batch_filter_self, List.nil_append]

theorem countP_eq_one_of_nodup {α : Type} [DecidableEq α] {l : List α} {a : α}
    (hn : l.Nodup) (ha : a ∈ l) : l.countP (fun x => decide (x = a)) = 1 := by
  induction l with
  | nil => simp at ha
  | cons b t ih =>
    obtain ⟨hbt, hnt⟩ := List.nodup_cons.mp hn
    rw [List.countP_cons]
    rcases List.mem_cons.mp ha with h | h
    · subst h
      have ht : t.countP (fun x => decide (x = a)) = 0 := by
        rw [List.countP_eq_zero]
        intro x hx
        simp only [decide_eq_true_eq]
        exact fun hxa => hbt (hxa ▸ hx)
      simp [ht]
    · have hba : ¬b = a := fun hba => hbt (hba ▸ h)
      simp [ih hnt h, hba]

/-! ### Fold-min lemmas (for the MIN aggregate over the VARCHAR column) -/

theorem foldl_min_le {α : Type} [LinearOrder α] (l : List α) (a : α) :
    l.foldl min a ≤ a ∧ ∀ x ∈ l, l.foldl min a ≤ x := by
  induction l generalizing a with
  | nil => simp
  | cons b t ih =>
    rw [List.foldl_cons]
    obtain ⟨h1, h2⟩ := ih (min a b)
    refine ⟨h1.trans (min_le_left a b), ?_⟩
    intro x hx
    rcases List.mem_cons.mp hx with h | h
    · exact h ▸ h1.trans (min_le_right a b)
    · exact h2 x h

theorem foldl_min_mem {α : Type} [LinearOrder α] (l : List α) (a : α) :
    l.foldl min a = a ∨ l.foldl min a ∈ l := by
  induction l generalizing a with
  | nil => left; rfl
  | cons b t ih =>
    rw [List.foldl_cons]
    rcases ih (min a b) with h | h
    · rcases min_choice a b with hab | hab
      · left; rw [h, hab]
      · right; rw [h, hab]; exact List.mem_cons_self b t
    · right; exact List.mem_cons_of_mem b h

/-! ### Claim theorems -/

/-- C1: merging the same ingest batch twice is idempotent. For every
series `S` (the absent series included, via `handle_maven_stats`) and
every batch `B`, `merge (merge S B) B = merge S B`; re-running the whole
ingest step with the same CSV rows and start month leaves the persisted
series unchanged, with no duplicated rows. -/
theorem merge_idempotent :
    (∀ S B : ConstructSeries,
      mergeSeries (mergeSeries S B) B = mergeSeries S B) ∧
    (∀ (st : Option ConstructSeries) (rows : List Int) (s : Ym),
      handle_maven_stats (some (handle_maven_stats st rows s)) rows s
        = handle_maven_stats st rows s) := by
  refine ⟨mergeSeries_idem, ?_⟩
  intro st rows s
  cases st with
  | none => exact mergeSeries_self _
  | some S => exact mergeSeries_idem S _

/-- C3: the merge is non-destructive outside the batch's month range:
every record of the existing series whose month is not among the batch's
months is present in the merged series unchanged. -/
theorem merge_preserves_outside (S B : ConstructSeries) (r : MonthlyRecord)
    (hr : r ∈ S) (hm : r.year_month ∉ batchMonths B) :
    r ∈ mergeSeries S B := by
  unfold mergeSeries
  refine List.mem_append_left _ ?_
  rw [List.mem_filter]
  exact ⟨hr, by simpa using hm⟩

/-- C3 witness: a record for 2024-01 survives a merge with a batch that
covers 2024-06 only. -/
theorem merge_preserves_outside_witness :
    (⟨100, "2024-01"⟩ : MonthlyRecord) ∈
      mergeSeries [⟨100, "2024-01"⟩] (buildBatch [150] ⟨2024, 6⟩) :=
  merge_preserves_outside _ _ _ (by decide) (by decide)

/-- C4: batch construction maps CSV row index to calendar month by offset
from the start month: row `i` is assigned the month `startMonth + i`
months, labelled in YYYY-MM format, and carries the row's value. -/
theorem buildBatch_row_to_month (rows : List Int) (s : Ym) (i : Nat)
    (h : i < rows.length) :
    (buildBatch rows s)[i]? =
      some ⟨rows.get ⟨i, h⟩, fmtYm (addMonths s i)⟩ := by
  rw [buildBatch, List.getElem?_ofFn]
  simp [List.ofFnNthVal, h]

/-- C4 witness: with start month 2023-08 and rows [5, 10, 0], row 1 maps
to 2023-09 with value 10. -/
theorem buildBatch_row_to_month_witness :
    (buildBatch [5, 10, 0] ⟨2023, 8⟩)[1]? = some ⟨10, "2023-09"⟩ := by
  have h := buildBatch_row_to_month [5, 10, 0] ⟨2023, 8⟩ 1 (by decide)
  rw [h]
  decide

/-- C6: reading the aggregate for a construct with no persisted artifact
(and likewise for an empty series) returns zero; in the embedding
`java_get_downloads` is a total function, so the absent state is a
normal, non-exceptional outcome. -/
theorem get_downloads_absent_store :
    java_get_downloads none = 0 ∧ java_get_downloads (some []) = 0 :=
  ⟨rfl, rfl⟩

/-- C10: the YYYY-MM label produced for a batch row depends only on the
year and month of the supplied start date, not on its day of month: the
label computed from a full start date equals the label computed from the
date truncated to the first of its month, and both equal the pure
month-arithmetic label used by `buildBatch`. -/
theorem row_label_ignores_day (dt : Dt) (i : Nat) :
    rowLabelFromDate dt i = rowLabelFromDate (truncToMonth dt) i ∧
    rowLabelFromDate dt i = fmtYm (addMonths ⟨dt.y, dt.m⟩ i) := by
  constructor <;> rfl

/-- C2: the merge is last-writer-wins keyed by month and preserves key
uniqueness: for every existing series and every batch built from CSV
rows, the month assigned to row `i` appears in the merged series exactly
once, and the unique record under that key carries the batch's value for
row `i` (any prior record for that month is discarded, never
duplicated). -/
theorem merge_last_writer_wins (S : ConstructSeries) (rows : List Int)
    (s : Ym) (i : Nat) (h : i < rows.length) :
    (mergeSeries S (buildBatch rows s)).countP
        (fun r => decide (r.year_month = fmtYm (addMonths s i))) = 1 ∧
    ∀ r ∈ mergeSeries S (buildBatch rows s),
      r.year_month = fmtYm (addMonths s i) →
        r.downloads = rows.get ⟨i, h⟩ := by
  have hlab : fmtYm (addMonths s i) ∈ batchMonths (buildBatch rows s) :=
    label_mem_batchMonths rows s h
  constructor
  · unfold mergeSeries
    rw [List.countP_append]
    have h0 : (S.filter
        (fun r => decide (r.year_month ∉ batchMonths (buildBatch rows s)))).countP
        (fun r => decide (r.year_month = fmtYm (addMonths s i))) = 0 := by
      rw [List.countP_eq_zero]
      intro r hr
      rw [List.mem_filter] at hr
      have h2 : r.year_month ∉ batchMonths (buildBatch rows s) := by
        simpa using hr.2
      simp only [decide_eq_true_eq]
      exact fun he => h2 (he ▸ hlab)
    have h1 : (buildBatch rows s).countP
        (fun r => decide (r.year_month = fmtYm (addMonths s i))) = 1 := by
      have hc := countP_eq_one_of_nodup (batchMonths_buildBatch_nodup rows s) hlab
      rw [batchMonths, List.countP_map] at hc
      exact hc
    rw [h0, h1]
  · intro r hr he
    unfold mergeSeries at hr
    rcases List.mem_append.mp hr with hf | hb
    · rw [List.mem_filter] at hf
      have h2 : r.year_month ∉ batchMonths (buildBatch rows s) := by
        simpa using hf.2
      exact absurd (he ▸ hlab) h2
    · obtain ⟨j, hj⟩ := mem_buildBatch hb
      have hym : fmtYm (addMonths s j.val) = fmtYm (addMonths s i) := by
        rw [hj] at he
        exact he
      have hij : j = ⟨i, h⟩ := Fin.ext (rowLabel_inj s hym)
      rw [hj, hij]

/-- C2 witness: an existing record 2024-01 with value 100 merged with a
batch record 2024-01 with value 150 yields exactly one record for
2024-01, necessarily carrying 150. -/
theorem merge_last_writer_wins_witness :
    (mergeSeries [⟨100, "2024-01"⟩] (buildBatch [150] ⟨2024, 1⟩)).countP
        (fun r => decide (r.year_month = fmtYm (addMonths ⟨2024, 1⟩ 0))) = 1 :=
  (merge_last_writer_wins [⟨100, "2024-01"⟩] [150] ⟨2024, 1⟩ 0 (by decide)).1

/-- C5: the aggregate query returns the sum of all downloads values and
the minimum month key of the persisted series: on every non-empty series
it yields a result, and whatever it yields is the sum of every record's
downloads paired with a least month key of the series. -/
theorem aggregate_sum_min (s : ConstructSeries) (h : s ≠ []) :
    (aggregateSeries s).isSome = true ∧
    ∀ t m, aggregateSeries s = some (t, m) →
      t = (s.map MonthlyRecord.downloads).sum ∧
      m ∈ s.map MonthlyRecord.year_month ∧
      ∀ m2 ∈ s.map MonthlyRecord.year_month, m ≤ m2 := by
  cases s with
  | nil => exact absurd rfl h
  | cons r rs =>
    refine ⟨rfl, ?_⟩
    intro t m hm
    simp only [aggregateSeries, Option.some.injEq, Prod.mk.injEq] at hm
    obtain ⟨h1, h2⟩ := hm
    refine ⟨h1.symm, ?_, ?_⟩
    · rw [← h2, List.map_cons]
      rcases foldl_min_mem (rs.map MonthlyRecord.year_month) r.year_month with hh | hh
      · rw [hh]
        exact List.mem_cons_self _ _
      · exact List.mem_cons_of_mem _ hh
    · intro m2 hm2
      rw [← h2]
      rw [List.map_cons] at hm2
      obtain ⟨hle, hall⟩ := foldl_min_le (rs.map MonthlyRecord.year_month) r.year_month
      rcases List.mem_cons.mp hm2 with hx | hx
      · exact hx ▸ hle
      · exact hall m2 hx

/-- C5 witness: the series 2023-01 with 10, 2023-02 with 20, 2023-03 with
5 aggregates to total 35 and earliest month 2023-01. -/
theorem aggregate_sum_min_witness :
    (aggregateSeries
        [⟨10, "2023-01"⟩, ⟨20, "2023-02"⟩, ⟨5, "2023-03"⟩]).isSome = true ∧
    aggregateSeries [⟨10, "2023-01"⟩, ⟨20, "2023-02"⟩, ⟨5, "2023-03"⟩]
      = some (35, "2023-01") := by
  refine ⟨(aggregate_sum_min _ (by decide)).1, ?_⟩
  have e1 : min ("2023-01" : String) "2023-02" = "2023-01" :=
    min_eq_left (by rw [String.le_iff_toList_le]; decide)
  have e2 : min ("2023-01" : String) "2023-03" = "2023-01" :=
    min_eq_left (by rw [String.le_iff_toList_le]; decide)
  simp [aggregateSeries, e1, e2]

/-- C7 counterexample: a CSV batch whose single row is the negative value
-5 is not rejected; the ingest step merges it, so the previously
persisted series is modified and ends up holding the negative value. -/
theorem malformed_rejection_counterexample :
    handle_maven_stats (some [⟨100, "2024-01"⟩]) [-5] ⟨2024, 6⟩
        = [⟨100, "2024-01"⟩, ⟨-5, "2024-06"⟩] ∧
    handle_maven_stats (some [⟨100, "2024-01"⟩]) [-5] ⟨2024, 6⟩
        ≠ [⟨100, "2024-01"⟩] := by
  constructor <;> decide

/-- C7 amended: the ingest step performs no row validation on numeric
CSV rows: a batch containing a negative value is not rejected; every row,
the negative ones included, is merged into the persisted series with its
value stored as-is. -/
theorem negative_rows_merged (S : ConstructSeries) (rows : List Int)
    (s : Ym) (i : Nat) (h : i < rows.length)
    (_hneg : rows.get ⟨i, h⟩ < 0) :
    (⟨rows.get ⟨i, h⟩, fmtYm (addMonths s i)⟩ : MonthlyRecord)
      ∈ handle_maven_stats (some S) rows s := by
  show _ ∈ mergeSeries S (buildBatch rows s)
  unfold mergeSeries
  refine List.mem_append_right _ ?_
  rw [buildBatch, List.mem_ofFn]
  exact ⟨⟨i, h⟩, rfl⟩

/-- C7 amended witness: the negative row -5 of a one-row batch is merged
into a non-empty existing series. -/
theorem negative_rows_merged_witness :
    (⟨-5, "2024-06"⟩ : MonthlyRecord)
      ∈ handle_maven_stats (some [⟨100, "2024-01"⟩]) [-5] ⟨2024, 6⟩ :=
  negative_rows_merged [⟨100, "2024-01"⟩] [-5] ⟨2024, 6⟩ 0 (by decide) (by decide)

/-- C8 counterexample: with every HTTP platform healthy but the Go import
count missing (Python None), the per-construct totalling does not
contribute 0 for the Go platform: it aborts with a TypeError, so the
construct (and with it the multi-construct run) produces no total. -/
theorem error_isolation_counterexample :
    calculate_total_downloads_for_table ⟨some 1, some 2, some 3, some 4, none, 5⟩
        = Except.error "TypeError: unsupported operand types for +: NoneType and int" ∧
    calculate_total_downloads_for_table ⟨some 1, some 2, some 3, some 4, none, 5⟩
        ≠ Except.ok 15 := by
  exact ⟨rfl, fun hcontra => Except.noConfusion hcontra⟩

/-- C8 amended: failed HTTP lookups for NPM, PyPI, Java and NuGet each
contribute 0 and never abort the construct's total; but a missing Go
imported-by count (`get_import_count` returning None) raises a TypeError that
aborts the construct's computation, and hence the multi-construct run. -/
theorem platform_errors_isolated (r : PlatformResponses) :
    (∀ g, r.goImport = some g →
      calculate_total_downloads_for_table r
        = Except.ok (clientOrZero r.npm + clientOrZero r.pypi
            + clientOrZero r.java + clientOrZero r.nuget + (g + r.goClones))) ∧
    (r.goImport = none →
      calculate_total_downloads_for_table r
        = Except.error "TypeError: unsupported operand types for +: NoneType and int") ∧
    clientOrZero none = 0 := by
  refine ⟨?_, ?_, rfl⟩
  · intro g hg
    simp [calculate_total_downloads_for_table, hg]
  · intro hg
    simp [calculate_total_downloads_for_table, hg]

/-- C8 amended witness: with the NPM and Java lookups failing and the Go
imported-by count present, the total is computed with 0 contributions for the
failing platforms and the call does not abort. -/
theorem platform_errors_isolated_witness :
    calculate_total_downloads_for_table ⟨none, some 2, none, some 4, some 7, 3⟩
      = Except.ok 16 := by
  have h := (platform_errors_isolated ⟨none, some 2, none, some 4, some 7, 3⟩).1 7 rfl
  rw [h]
  rfl
